import Mathlib

/-!
Verification development for the nextr4y repository (Go).

The Go sources are shallowly embedded below.  Strings are modelled as
`List Char` (`Str`), Go `map[string]bool` sets as duplicate-free lists in
insertion order, and Go `map[string]T` inputs as association lists (Go map
keys are unique, which appears as a `Nodup` hypothesis where it matters).
External collaborators (network fetch, HTML parsing via goquery, the goja
script engine) are parameters of the embedded pipeline, mirroring the Go
interfaces they implement.
-/

namespace Nextr4y

/-- Strings are modelled as lists of characters (Go strings are byte
slices; every literal in the claims is ASCII, where the two views agree). -/
abbrev Str := List Char

/-- Go `strings.HasPrefix hay pre`. -/
def startsW : Str → Str → Bool
  | _, [] => true
  | [], _ :: _ => false
  | c :: cs, p :: ps => c == p && startsW cs ps

/-- Go `strings.HasSuffix hay suf`. -/
def endsW (hay suf : Str) : Bool := startsW hay.reverse suf.reverse

/-- Go `strings.Contains hay needle`. -/
def hasSub : Str → Str → Bool
  | hay, needle =>
    match hay with
    | [] => startsW [] needle
    | _ :: rest => startsW hay needle || hasSub rest needle

/-- Go `bytes.Index hay needle` / `strings.Index`: index of the first
occurrence, `-1` if absent (as in Go, the result is an `int`). -/
def idxOfZ : Str → Str → Int
  | hay, needle =>
    match hay with
    | [] => if startsW [] needle then 0 else -1
    | _ :: rest =>
      if startsW hay needle then 0
      else
        let r := idxOfZ rest needle
        if r < 0 then -1 else r + 1

/-- Slice `l[a:b]` of a list (Go byte-slice indexing with `a ≤ b`). -/
def sliceL (l : Str) (a b : Nat) : Str := (l.drop a).take (b - a)

/-- Go `strings.TrimPrefix s pre`: remove `pre` once if present. -/
def trimPre (s pre : Str) : Str :=
  if startsW s pre then s.drop pre.length else s

/-- Go `strings.Trim s "/"`: remove leading and trailing `/` runs. -/
def trimSlashes (s : Str) : Str :=
  ((s.dropWhile (· == '/')).reverse.dropWhile (· == '/')).reverse

/-- Byte-wise (here: character-wise) string comparison, Go `s < t`;
`lexLe s t` means `s ≤ t`.  All URLs involved are ASCII, where Go's
byte order and the character order coincide. -/
def lexLe : Str → Str → Bool
  | [], _ => true
  | _ :: _, [] => false
  | a :: as, b :: bs =>
    if a.val < b.val then true
    else if b.val < a.val then false
    else lexLe as bs

/-- Go `sort.Strings`: sort ascending in byte order. -/
def sortLex (l : List Str) : List Str := l.insertionSort (fun a b => lexLe a b)

/-- Adding a key to a Go `map[string]bool` used as a set, keeping first
insertion order for the list model. -/
def setInsert (s : List Str) (x : Str) : List Str :=
  if x ∈ s then s else s ++ [x]

/-- Insert a list of keys into a Go set map, one after the other. -/
def setInsertAll (s : List Str) (xs : List Str) : List Str :=
  xs.foldl setInsert s

/-- Assignment `m[k] = v` on a Go `map[string][]string`, modelled on an
association list: replace the binding if the key exists, else append. -/
def mapUpd (m : List (Str × List Str)) (k : Str) (v : List Str) :
    List (Str × List Str) :=
  if m.any (fun p => p.1 == k) then
    m.map (fun p => if p.1 == k then (k, v) else p)
  else m ++ [(k, v)]

/-- Split a path into `/`-separated segments; a leading, trailing or
doubled `/` yields empty segments, as `strings.Split s "/"` does. -/
def splitSeg : Str → List Str
  | [] => [[]]
  | c :: rest =>
    if c = '/' then [] :: splitSeg rest
    else
      match splitSeg rest with
      | [] => [[c]]
      | s :: ss => (c :: s) :: ss

/-- Join segments with `/` (inverse of `splitSeg`). -/
def intercalSeg : List Str → Str
  | [] => []
  | [s] => s
  | s :: rest => s ++ '/' :: intercalSeg rest

/-- The slice of a Go `net/url.URL` that the scanner reads and writes:
scheme, host and path.  Query/fragment/userinfo never occur in the code
under verification. -/
structure GoURL where
  scheme : Str
  host : Str
  path : Str
deriving DecidableEq, Repr

/-- Go `url.Parse` restricted to the shapes the scanner produces:
`scheme://host[/path]` is split into its three components, anything
without `://` is an opaque (relative) path.  `url.Parse` only fails on
malformed control characters, which never arise here, so the model is
total. -/
def parseGoURL (s : Str) : GoURL :=
  if hasSub s ("://".data) then
    let scheme := s.takeWhile (· ≠ ':')
    let rest := (s.drop (scheme.length + 3))
    let host := rest.takeWhile (· ≠ '/')
    { scheme := scheme, host := host, path := rest.drop host.length }
  else { scheme := [], host := [], path := s }

/-- Go `url.URL.String` for the shapes above: `scheme:` then `//host`
then the path. -/
def urlString (u : GoURL) : Str :=
  (if u.scheme ≠ [] then u.scheme ++ [':'] else [])
    ++ (if u.host ≠ [] then '/' :: '/' :: u.host else [])
    ++ u.path

/-- Segment processing of Go `path.Clean` (after the input has been split
on `/`): drop empty and `.` segments, let `..` pop a previous segment;
in a rooted path an unmatched `..` is dropped, otherwise it is kept. -/
def cleanSegsGo (rooted : Bool) : List Str → List Str → List Str
  | acc, [] => acc.reverse
  | acc, s :: rest =>
    if s = [] ∨ s = ".".data then cleanSegsGo rooted acc rest
    else if s = "..".data then
      match acc with
      | [] => if rooted then cleanSegsGo rooted [] rest
              else cleanSegsGo rooted ["..".data] rest
      | a :: as =>
        if a = "..".data then cleanSegsGo rooted (s :: a :: as) rest
        else cleanSegsGo rooted as rest
    else cleanSegsGo rooted (s :: acc) rest

/-- Go `path.Clean`. -/
def goPathClean (p : Str) : Str :=
  if p = [] then ".".data
  else
    let rooted := p.head? = some '/'
    let segs := cleanSegsGo rooted [] (splitSeg p)
    if rooted then
      '/' :: intercalSeg segs
    else if segs = [] then ".".data
    else intercalSeg segs

/-- Go `path.Join`: drop leading empty elements, join the rest with `/`
and clean the result (`path.Join` returns `""` when every element is
empty). -/
def goPathJoin (elems : List Str) : Str :=
  match elems.dropWhile (· = []) with
  | [] => []
  | es => goPathClean (intercalSeg es)

/-- Go `path.Base`: the last element of the path (after dropping any
trailing slashes); `"."` for the empty path, `"/"` for all-slashes. -/
def pathBase (p : Str) : Str :=
  if p = [] then ".".data
  else
    let q := p.reverse.dropWhile (· == '/')
    if q = [] then "/".data
    else (q.takeWhile (· ≠ '/')).reverse

/-- RFC 3986 `remove_dot_segments` on a segment list, as performed by Go
`net/url.resolvePath`: `.` is dropped, `..` pops, and a trailing `.` or
`..` leaves a trailing empty segment (trailing slash). -/
def rdsSegs : List Str → List Str → List Str
  | acc, [] => acc.reverse
  | acc, s :: rest =>
    if s = ".".data then
      if rest = [] then acc.reverse ++ [[]] else rdsSegs acc rest
    else if s = "..".data then
      if rest = [] then (acc.drop 1).reverse ++ [[]]
      else rdsSegs (acc.drop 1) rest
    else rdsSegs (s :: acc) rest

/-- Base path up to and including its last `/` (empty if it has none),
Go `base[:strings.LastIndex(base, "/")+1]`. -/
def upToLastSlash (p : Str) : Str :=
  (p.reverse.dropWhile (· ≠ '/')).reverse

/-- Go `net/url.resolvePath base ref`: merge the reference path into the
base path and remove dot segments; the result is always rooted. -/
def urlResolvePath (basePath ref : Str) : Str :=
  let full :=
    if ref = [] then basePath
    else if ref.head? = some '/' then ref
    else upToLastSlash basePath ++ ref
  if full = [] then []
  else
    let segs := splitSeg full
    let segs := if full.head? = some '/' then segs.tail else segs
    '/' :: intercalSeg (rdsSegs [] segs)

/-- Go `base.ResolveReference(&url.URL{Path: p})` for a reference that
only carries a path (the only form the scanner builds): the result keeps
the base's scheme and host and resolves the path. -/
def resolveRefURL (base : GoURL) (refPath : Str) : GoURL :=
  { scheme := base.scheme, host := base.host,
    path := urlResolvePath base.path refPath }

/-! ### Version-detection regexes (internal/versiondetect)

The Go file compiles its patterns from raw (backtick) string literals, so
a `\\` in the source reaches the regexp engine as an escaped literal
backslash.  Consequently, in
`windowNextDirectVersionRegex` and `assignmentVersionRegex` the capture
group `(\\d+\\.\\d+\\.\\d+...)` matches a literal backslash followed by
letters `d`, **not** digits, and `[\\s\\S]` is the three-character class
backslash/`s`/`S`.  The matchers below are hand-compiled deterministic
versions of exactly those patterns; for each, greedy/lazy repetition is
resolved the way RE2's leftmost-first semantics resolves it for that
pattern (no effective backtracking exists: every repetition body is a
character class disjoint from the character required next). -/

/-- The single-quote character. -/
def quoteCh : Char := Char.ofNat 39

/-- Opening curly brace character. -/
def braceOpen : Char := Char.ofNat 123

/-- Character class `["']`. -/
def isQuoteC (c : Char) : Bool := c = '"' || c = quoteCh

/-- RE2 `\s`, the class `[\t\n\f\r ]`. -/
def isWSC (c : Char) : Bool :=
  c = ' ' || c = '\t' || c = '\n' || c = '\r' || c = Char.ofNat 12

/-- Character class `[a-zA-Z0-9_$]`. -/
def isIdentC (c : Char) : Bool := c.isAlphanum || c = '_' || c = '$'

/-- Character class `[\\s\\S]` — literal backslash, `s`, `S` (raw-string
double escaping). -/
def lazyClassC (c : Char) : Bool := c = '\\' || c = 's' || c = 'S'

/-- Match of `simpleVersionRegex` = `["'](\d+\.\d+\.\d+[^"']*)["']`
anchored at the start of `l`: returns (full match, capture group, rest
after the match).  This pattern is written with single backslashes in the
Go source, so it genuinely matches quoted dotted version numbers. -/
def matchSimpleAt (l : Str) : Option (Str × Str × Str) :=
  match l with
  | [] => none
  | q0 :: rest =>
    if isQuoteC q0 then
      let s1 := rest.span (·.isDigit)
      if s1.1 = [] then none else
      match s1.2 with
      | '.' :: r2 =>
        let s2 := r2.span (·.isDigit)
        if s2.1 = [] then none else
        match s2.2 with
        | '.' :: r4 =>
          let s3 := r4.span (·.isDigit)
          if s3.1 = [] then none else
          let s4 := s3.2.span (fun c => !(isQuoteC c))
          match s4.2 with
          | q1 :: r7 =>
            let grp := s1.1 ++ '.' :: (s2.1 ++ '.' :: (s3.1 ++ s4.1))
            some (q0 :: (grp ++ [q1]), grp, r7)
          | [] => none
        | _ => none
      | _ => none
    else none

/-- `FindAllSubmatch` for `simpleVersionRegex`: leftmost matches, each
scan resuming after the previous match.  Fuel is the remaining input
length plus one; every step either consumes a whole match (length at
least eight) or one character, so the initial fuel always suffices. -/
def findSimpleFuel : Nat → Str → List (Str × Str)
  | 0, _ => []
  | fuel + 1, l =>
    match matchSimpleAt l with
    | some (full, grp, rest) => (full, grp) :: findSimpleFuel fuel rest
    | none =>
      match l with
      | [] => []
      | _ :: t => findSimpleFuel fuel t

/-- All matches of `simpleVersionRegex` in `content`, with their capture
groups. -/
def findSimpleAll (content : Str) : List (Str × Str) :=
  findSimpleFuel (content.length + 1) content

/-- Try a position-anchored matcher at every position, leftmost first
(`FindSubmatch` semantics). -/
def scanFirst (f : Str → Option α) : Str → Option α
  | [] => f []
  | c :: rest =>
    match f (c :: rest) with
    | some r => some r
    | none => scanFirst f rest

/-- First match's capture group of `simpleVersionRegex`
(`FindSubmatch`). -/
def simpleFirst (content : Str) : Option Str :=
  scanFirst (fun l => (matchSimpleAt l).map (fun t => t.2.1)) content

/-- The lazy `[\\s\\S]*?version` part: find the nearest occurrence of
`version` reachable by consuming only class characters (backslash, `s`,
`S`).  Lazy repetition tries the shortest consumption first; once a
non-class character other than the start of `version` is hit, no longer
consumption can succeed either. -/
def lazySeekVersion : Str → Option Str
  | [] => none
  | c :: rest =>
    if startsW (c :: rest) ("version".data) then some ((c :: rest).drop 7)
    else if lazyClassC c then lazySeekVersion rest
    else none

/-- Shared head of the two `window.next` patterns:
`window\.next\s*=\s*{` anchored at the start of `l`; returns the rest
after the opening brace. -/
def afterWindowNextBrace (l : Str) : Option Str :=
  if startsW l ("window.next".data) then
    let r1 := (l.drop 11).dropWhile isWSC
    match r1 with
    | '=' :: r2 =>
      let r3 := r2.dropWhile isWSC
      match r3 with
      | b :: r4 => if b = braceOpen then some r4 else none
      | [] => none
    | _ => none
  else none

/-- The `[\\s\\S]*?version\s*:\s*` middle part shared by both
`window.next` patterns. -/
def versionColonTail (l : Str) : Option Str :=
  match lazySeekVersion l with
  | none => none
  | some r =>
    let r1 := r.dropWhile isWSC
    match r1 with
    | ':' :: r2 => some (r2.dropWhile isWSC)
    | _ => none

/-- Parse `\\d+` as the double-escaped Go raw string means it: a literal
backslash followed by one or more letters `d`. -/
def bsDigitsRun (l : Str) : Option (Str × Str) :=
  match l with
  | '\\' :: r =>
    let s := r.span (· == 'd')
    if s.1 = [] then none else some ('\\' :: s.1, s.2)
  | _ => none

/-- Parse `\\.` as the double-escaped raw string means it: a literal
backslash followed by any character. -/
def bsAnyChar (l : Str) : Option (Str × Str) :=
  match l with
  | '\\' :: c :: r => some (['\\', c], r)
  | _ => none

/-- Capture group of `windowNextDirectVersionRegex`:
`(\\d+\\.\\d+\\.\\d+[^\\\"\']*)` followed by the closing `[\"\']`.
Because of the double escaping this requires literal backslashes and can
never match a plain quoted version number. -/
def directGroupParse (l : Str) : Option (Str × Str) :=
  match bsDigitsRun l with
  | none => none
  | some (a, r1) =>
    match bsAnyChar r1 with
    | none => none
    | some (b, r2) =>
      match bsDigitsRun r2 with
      | none => none
      | some (c, r3) =>
        match bsAnyChar r3 with
        | none => none
        | some (d, r4) =>
          match bsDigitsRun r4 with
          | none => none
          | some (e, r5) =>
            let s := r5.span (fun ch => !(ch = '\\' || isQuoteC ch))
            match s.2 with
            | q :: r7 =>
              if isQuoteC q then some (a ++ b ++ c ++ d ++ e ++ s.1, r7)
              else none
            | [] => none

/-- `windowNextDirectVersionRegex` anchored at the start of `l`; returns
the capture group. -/
def matchWindowDirectAt (l : Str) : Option Str :=
  match afterWindowNextBrace l with
  | none => none
  | some r =>
    match versionColonTail r with
    | none => none
    | some r2 =>
      match r2 with
      | q :: r3 =>
        if isQuoteC q then (directGroupParse r3).map (·.1) else none
      | [] => none

/-- `windowNextVarVersionRegex` anchored at the start of `l`: the version
field set to an identifier; returns the capture group
`[a-zA-Z0-9_$]+(?:\\.[a-zA-Z0-9_$]+)?` (whose optional part again needs a
literal backslash). -/
def matchWindowVarAt (l : Str) : Option Str :=
  match afterWindowNextBrace l with
  | none => none
  | some r =>
    match versionColonTail r with
    | none => none
    | some r2 =>
      let s := r2.span isIdentC
      if s.1 = [] then none
      else
        match s.2 with
        | '\\' :: c :: r4 =>
          let s2 := r4.span isIdentC
          if s2.1 = [] then some s.1 else some (s.1 ++ '\\' :: c :: s2.1)
        | _ => some s.1

/-- The `(?:let|var|const)` alternation; the three keywords start with
different characters, so leftmost-first choice is deterministic. -/
def kwTail (l : Str) : Option Str :=
  if startsW l ("let".data) then some (l.drop 3)
  else if startsW l ("var".data) then some (l.drop 3)
  else if startsW l ("const".data) then some (l.drop 5)
  else none

/-- `assignmentVersionRegex` anchored at the start of `l`:
`(?:let|var|const)\s+[a-zA-Z0-9_$]+\s*=\s*[\"\'](\\d+\\.\\d+\\.\\d+[^\"\']*)[\"\']`.
The capture again requires literal backslashes, so a real declaration
like `let X = "1.2.3"` never matches. -/
def matchAssignAt (l : Str) : Option Str :=
  match kwTail l with
  | none => none
  | some r =>
    let sw := r.span isWSC
    if sw.1 = [] then none else
    let si := sw.2.span isIdentC
    if si.1 = [] then none else
    let r3 := si.2.dropWhile isWSC
    match r3 with
    | '=' :: r4 =>
      let r5 := r4.dropWhile isWSC
      match r5 with
      | q :: r6 =>
        if isQuoteC q then
          match bsDigitsRun r6 with
          | none => none
          | some (a, t1) =>
            match bsAnyChar t1 with
            | none => none
            | some (b, t2) =>
              match bsDigitsRun t2 with
              | none => none
              | some (c, t3) =>
                match bsAnyChar t3 with
                | none => none
                | some (d, t4) =>
                  match bsDigitsRun t4 with
                  | none => none
                  | some (e, t5) =>
                    let s := t5.span (fun ch => !(isQuoteC ch))
                    match s.2 with
                    | _ :: _ => some (a ++ b ++ c ++ d ++ e ++ s.1)
                    | [] => none
        else none
      | [] => none
    | _ => none

/-! ### The heuristic detector (internal/versiondetect, `Detect`)

The `fetch.Fetcher` dependency is a function from URL to either an error
message or the fetched content; `Detect`'s internal `fetchContent`
helper converts this to an optional content, exactly as the Go closure
turns a fetch error into `ok = false`. -/

/-- Go `detectWithWindowNextPattern`: walk the URLs; a direct-pattern
capture wins immediately; a variable-pattern match triggers a file-wide
declaration search (`assignmentVersionRegex`) and then a file-wide loose
search (`simpleVersionRegex`); otherwise continue with the next URL. -/
def detectWithWindowNextPattern (urls : List Str) (fc : Str → Option Str) :
    Option Str :=
  match urls with
  | [] => none
  | u :: rest =>
    match fc u with
    | none => detectWithWindowNextPattern rest fc
    | some content =>
      match scanFirst matchWindowDirectAt content with
      | some v => some v
      | none =>
        match scanFirst matchWindowVarAt content with
        | some _ =>
          match scanFirst matchAssignAt content with
          | some v => some v
          | none =>
            match simpleFirst content with
            | some v => some v
            | none => detectWithWindowNextPattern rest fc
        | none => detectWithWindowNextPattern rest fc

/-- The 30-character context window around the first occurrence of the
matched text, as the Go code computes it: the window is anchored at
`bytes.Index content fullMatch` (the first occurrence of the matched
bytes, not necessarily the position of this particular match). -/
def ctxOf (content full : Str) : Str :=
  let i := idxOfZ content full
  let start := (max 0 (i - 30)).toNat
  let stop := (min (content.length : Int) (i + full.length + 30)).toNat
  sliceL content start stop

/-- Body of the per-match loop of `detectWithSimpleContextPattern`.
State is (next version, react version), each empty when still unknown.
A react token in the window classifies the match as a React version; a
window with neither react token nor `reconcilerVersion` classifies it as
a Next.js version. -/
def stepMatch (content : Str) (st : Str × Str) (m : Str × Str) :
    Str × Str :=
  if st.1 ≠ [] ∧ st.2 ≠ [] then st
  else
    let ctx := ctxOf content m.1
    let isReact := hasSub ctx ("react".data) || hasSub ctx ("React".data)
      || hasSub ctx ("react-dom".data)
    let isRec := hasSub ctx ("reconcilerVersion".data)
    if isReact = true ∧ st.2 = [] then (st.1, m.2)
    else if isReact = false ∧ isRec = false ∧ st.1 = [] then (m.2, st.2)
    else st

/-- Per-file part of `detectWithSimpleContextPattern`: fold the loop body
over all `simpleVersionRegex` matches of one file. -/
def processContent (content : Str) (st : Str × Str) : Str × Str :=
  (findSimpleAll content).foldl (stepMatch content) st

/-- Go `detectWithSimpleContextPattern` over a URL list. -/
def detectWithSimpleContextPattern (urls : List Str)
    (fc : Str → Option Str) (curNext curReact : Str) : Str × Str :=
  urls.foldl
    (fun st u =>
      if st.1 ≠ [] ∧ st.2 ≠ [] then st
      else
        match fc u with
        | none => st
        | some c => processContent c st)
    (curNext, curReact)

/-- Go `detectWithAppManifestProbe`: probe
`<asset-base>/_next/static/<buildID>/_appManifest.js` for existence.  The
fetcher returns either success (body discarded) or its error message;
the 404/403 discrimination is textual, on the message produced by the
HTTP fetcher's bad-status error. -/
def detectWithAppManifestProbe (buildID : Str) (assetBase : Option GoURL)
    (fetch : Option (Str → Except Str Unit)) : Str × Bool :=
  match assetBase, fetch with
  | some u, some f =>
    if buildID = [] then ("Unknown (Missing data)".data, false)
    else
      let p := goPathJoin ["_next/static".data, buildID, "_appManifest.js".data]
      let full := urlString (resolveRefURL u p)
      match f full with
      | .ok _ => (">=13 (App Router Likely)".data, true)
      | .error e =>
        if hasSub e ("bad status code".data)
            ∧ (hasSub e (": 404".data) ∨ hasSub e (": 403".data)) then
          ("<13 / Pages Router Likely".data, true)
        else ("Unknown (Error probing)".data, false)
  | _, _ => ("Unknown (Missing data)".data, false)

/-- URL classification of `Detect`: a URL is a priority URL when the
last path segment contains `framework` or `main` (Go `url.Parse` cannot
fail on the well-formed URLs the scanner produces, so the error guard is
not modelled). -/
def classifyURLs (urls : List Str) : List Str × List Str :=
  urls.foldl
    (fun acc u =>
      let parsed := parseGoURL u
      if hasSub (pathBase parsed.path) ("framework".data)
          ∨ hasSub (pathBase parsed.path) ("main".data) then
        (acc.1 ++ [u], acc.2)
      else (acc.1, acc.2 ++ [u]))
    ([], [])

/-- Go `HeuristicAssetScannerDetector.Detect`: the full strategy cascade.
`jsAssetURLs` is the Go `map[string]bool` key set as a list (the
classification result is sorted, so any enumeration order yields the
same answer). -/
def Detect (buildID : Str) (jsAssetURLs : List Str)
    (assetBase : Option GoURL) (fetch : Str → Except Str Str) : Str × Str :=
  let cls := classifyURLs jsAssetURLs
  let priorityURLs := sortLex cls.1
  let otherURLs := sortLex cls.2
  let allURLs := sortLex (priorityURLs ++ otherURLs)
  let fc : Str → Option Str := fun u =>
    match fetch u with
    | .ok c => some c
    | .error _ => none
  let probeF : Str → Except Str Unit := fun u =>
    match fetch u with
    | .ok _ => .ok ()
    | .error e => .error e
  let n1 := match detectWithWindowNextPattern priorityURLs fc with
    | some v => v
    | none => []
  let r1 := (detectWithSimpleContextPattern priorityURLs fc n1 []).2
  let n2 :=
    if n1 = [] then
      match detectWithWindowNextPattern otherURLs fc with
      | some v => v
      | none => []
    else n1
  let st :=
    if n2 = [] ∨ r1 = [] then
      let p := detectWithSimpleContextPattern allURLs fc n2 r1
      (if n2 = [] ∧ p.1 ≠ [] then p.1 else n2,
       if r1 = [] ∧ p.2 ≠ [] then p.2 else r1)
    else (n2, r1)
  let n4 :=
    if st.1 = [] then
      let pr := detectWithAppManifestProbe buildID assetBase (some probeF)
      if pr.2 then pr.1 else []
    else st.1
  (if n4 = [] then "Unknown".data else n4,
   if st.2 = [] then "Unknown".data else st.2)

/-! ### The scanner (internal/scanner)

`ScanTarget`'s external collaborators — the fetcher, the goquery-based
HTML extraction (`findAndParseNextData`, `findInitialScriptURLs`) and the
goja-based manifest evaluation (`executeManifestJS`) — are bundled as
function-typed dependencies, mirroring the Go interfaces and the spec's
component boundaries.  Everything the scanner itself computes is
embedded directly. -/

/-- Values of the evaluated manifest map, as exported by goja:
a string, a sequence, or anything else (`map[string]interface{}`
values). -/
inductive MVal where
  | str (s : Str)
  | list (items : List MVal)
  | other

/-- Per-asset URL construction of `extractRoutesAndAssets`: strip one
leading `/`, join under the asset-base path together with the `_next`
segment, and attach the asset base's scheme and host. -/
def mkAssetURL (base : GoURL) (assetPath : Str) : Str :=
  let ap := trimPre assetPath ("/".data)
  urlString { scheme := base.scheme, host := base.host,
              path := goPathJoin [base.path, "_next".data, ap] }

/-- Per-route asset processing of `extractRoutesAndAssets`: keep string
entries ending in `.js`/`.css` and turn them into absolute URLs. -/
def processAssets (base : GoURL) : List MVal → List Str
  | [] => []
  | .str a :: rest =>
    if endsW a (".js".data) || endsW a (".css".data) then
      mkAssetURL base a :: processAssets base rest
    else processAssets base rest
  | _ :: rest => processAssets base rest

/-- Route-value coercion of `extractRoutesAndAssets`: a sequence is used
as is; a single string is accepted when it ends in `.js`/`.css`
(one-element sequence); anything else skips the route. -/
def coerceAssets : MVal → Option (List MVal)
  | .list items => some items
  | .str s =>
    if endsW s (".js".data) || endsW s (".css".data) then some [.str s]
    else none
  | .other => none

/-- Reserved manifest keys: a `__` sentinel or `sortedPages`. -/
def skipKey (k : Str) : Bool :=
  startsW k ("__".data) || k = ("sortedPages").data

/-- Main loop of `extractRoutesAndAssets` over the manifest entries,
accumulating the route map and the set of all asset URLs. -/
def extractLoop (base : GoURL) :
    List (Str × MVal) → List (Str × List Str) × List Str →
    List (Str × List Str) × List Str
  | [], acc => acc
  | (k, v) :: rest, acc =>
    if skipKey k then extractLoop base rest acc
    else
      match coerceAssets v with
      | none => extractLoop base rest acc
      | some items =>
        let ras := processAssets base items
        extractLoop base rest
          (mapUpd acc.1 k (sortLex ras), setInsertAll acc.2 ras)

/-- Go `extractRoutesAndAssets`: the evaluated manifest map (association
list; Go map keys are unique) and the asset-base URL string give the
route map and the set of all asset URLs.  `url.Parse` of the asset base
cannot fail on the URLs the scanner produces, so the warning branch that
substitutes an empty URL is not modelled. -/
def extractRoutesAndAssets (manifestData : List (Str × MVal))
    (assetBaseURL : Str) : List (Str × List Str) × List Str :=
  extractLoop (parseGoURL assetBaseURL) manifestData ([], [])

/-- Outcome of `findAndParseNextData` (external HTML/JSON extraction):
success carries buildId, assetPrefix and the raw JSON; the three error
shapes mirror the Go function's returns (`errNotFound` and
`errUnmarshal` return no usable struct, `errIncomplete` returns the
partially filled struct). -/
inductive NDOut where
  | ok (bid pfxVal raw : Str)
  | errNotFound
  | errUnmarshal (raw : Str)
  | errIncomplete (bid pfxVal raw : Str)

/-- The three error values `findAndParseNextData` can produce. -/
inductive NDErr where
  | notFound
  | unmarshalFailed
  | incompleteFields
deriving DecidableEq, Repr

/-- Go `errors.Is(err, errors.New("__NEXT_DATA__ script tag not found"))`.
`errors.New` allocates a fresh error value; `errors.Is` compares it by
identity (no `Unwrap` chain reaches it), so the comparison against a
freshly allocated target is false for every error, including the
not-found error itself. -/
def errorsIsFreshNotFoundND (_e : NDErr) : Bool := false

/-- What `ScanTarget` extracts from the `findAndParseNextData` outcome
(lines handling `nextDataErr`): the initial is-Next.js flag, buildId,
assetPrefix, raw JSON and the error, with fields copied only when the
struct exists and has a buildId. -/
structure NDInfo where
  isN : Bool
  bid : Str
  pfxVal : Str
  raw : Str
  err : Option NDErr

/-- Interpretation of the `__NEXT_DATA__` outcome by `ScanTarget`.  In
the error cases the `errors.Is` guard is always false, so the flag is
set to false whenever no buildId was recovered. -/
def ndInterpret : NDOut → NDInfo
  | .ok b p r => ⟨true, b, p, r, none⟩
  | .errNotFound => ⟨false, [], [], [], some .notFound⟩
  | .errUnmarshal r => ⟨false, [], [], r, some .unmarshalFailed⟩
  | .errIncomplete b p r =>
    if b ≠ [] then ⟨true, b, p, r, some .incompleteFields⟩
    else ⟨false, [], [], r, some .incompleteFields⟩

/-- Asset-base resolution of `ScanTarget` (custom base URL handling and
assetPrefix application).  `url.Parse` failures are not modelled (they
cannot occur for the inputs considered). -/
def scanAssetBase (custom : Str) (baseU : GoURL) (pfxStr : Str) : GoURL :=
  if custom ≠ [] then
    let customURL := parseGoURL custom
    if pfxStr ≠ [] then
      let pURL := parseGoURL pfxStr
      if pURL.scheme ≠ [] then
        let pp := pURL.path
        let addSlash :=
          ¬ endsW customURL.path ("/".data) = true
            ∧ ¬ startsW pp ("/".data) = true
        { customURL with
          path := customURL.path ++ (if addSlash then "/".data else [])
            ++ trimPre pp ("/".data) }
      else
        let addSlash :=
          ¬ endsW customURL.path ("/".data) = true
            ∧ ¬ startsW pfxStr ("/".data) = true
        { customURL with
          path := customURL.path ++ (if addSlash then "/".data else [])
            ++ trimPre pfxStr ("/".data) }
    else customURL
  else
    if pfxStr ≠ [] then
      let pURL := parseGoURL pfxStr
      if pURL.scheme ≠ [] then pURL
      else
        let resolved := resolveRefURL baseU pfxStr
        if resolved.path ≠ [] ∧ ¬ endsW resolved.path ("/".data) = true then
          { resolved with path := resolved.path ++ "/".data }
        else resolved
    else baseU

/-- Build-manifest URL derivation of `ScanTarget`: when the asset-base
path already contains the `_next` segment, append
`static/<buildId>/_buildManifest.js` relative to it, otherwise append
`_next/static/<buildId>/_buildManifest.js`. -/
def manifestURLFor (ab : GoURL) (bid : Str) : Str :=
  if hasSub ab.path ("/_next/".data) ∨ endsW ab.path ("/_next".data) = true then
    urlString (resolveRefURL ab
      (goPathJoin ["static".data, bid, "_buildManifest.js".data]))
  else
    urlString (resolveRefURL ab
      (goPathJoin ["_next/static".data, bid, "_buildManifest.js".data]))

/-- Fallback manifest-URL construction of `ScanTarget` (custom base URL
with an asset prefix whose first segment looks like a domain). -/
def fallbackManifestURL (custom pfxStr bid : Str) : Option Str :=
  let customRoot := parseGoURL custom
  let fallbackPath :=
    goPathJoin ["_next/static".data, bid, "_buildManifest.js".data]
  let pURL := parseGoURL pfxStr
  if pURL.host ≠ [] then
    let scheme := if customRoot.scheme = [] then "https".data
      else customRoot.scheme
    some (scheme ++ "://".data ++ pURL.host
      ++ goPathJoin [pURL.path, fallbackPath])
  else if hasSub pfxStr (".".data) then
    let ap := trimSlashes pfxStr
    match splitSeg ap with
    | p0 :: restParts =>
      if hasSub p0 (".".data) then
        let remaining :=
          if restParts ≠ [] then "/".data ++ intercalSeg restParts else []
        let scheme := if customRoot.scheme = [] then "https".data
          else customRoot.scheme
        some (scheme ++ "://".data ++ p0 ++ goPathJoin [remaining, fallbackPath])
      else none
    | [] => none
  else none

/-- The external dependencies of `ScanTarget`. -/
structure ScanDeps where
  fetch : Str → Except Str (Str × Str)
  parseND : Str → NDOut
  findScripts : Str → GoURL → List Str
  execManifest : Str → Except Str (List (Str × MVal))
  detect : Str → List Str → Option GoURL → Str × Str

/-- What the manifest phase of `ScanTarget` produces: the manifest-found
and executed-ok flags, routes, the `AllAssets` set, and the rendered
manifest-processing error, if any. -/
structure ManifestPhase where
  found : Bool
  execOK : Bool
  routes : List (Str × List Str)
  allAssets : List Str
  errMsg : Option Str
deriving DecidableEq

/-- Processing of a successfully fetched manifest body: evaluate it
(external goja step) and extract routes and assets; on evaluation
failure only the found flag is set. -/
def processManifestContent (deps : ScanDeps) (abStr content : Str) :
    ManifestPhase :=
  match deps.execManifest content with
  | .error e =>
    { found := true, execOK := false, routes := [], allAssets := [],
      errMsg := some (("goja execution failed: ").data ++ e) }
  | .ok mdata =>
    let ra := extractRoutesAndAssets mdata abStr
    { found := true, execOK := true, routes := ra.1, allAssets := ra.2,
      errMsg := none }

/-- The manifest phase of `ScanTarget` (manifest fetch with fallback, or
— with an empty buildId — populating `AllAssets` from the
HTML-discovered scripts). -/
def scanManifestPhase (deps : ScanDeps) (custom : Str) (ab : GoURL)
    (abStr bid pfxStr : Str) (scripts : List Str) : ManifestPhase :=
  if bid ≠ [] then
    let mURL := manifestURLFor ab bid
    match deps.fetch mURL with
    | .ok r => processManifestContent deps abStr r.1
    | .error e =>
      if custom ≠ [] ∧ pfxStr ≠ [] then
        match fallbackManifestURL custom pfxStr bid with
        | some fbURL =>
          match deps.fetch fbURL with
          | .ok r => processManifestContent deps abStr r.1
          | .error _ =>
            { found := false, execOK := false, routes := [], allAssets := [],
              errMsg := some (("failed to fetch build manifest at ").data
                ++ mURL ++ (" (and fallback): ").data ++ e) }
        | none =>
          { found := false, execOK := false, routes := [], allAssets := [],
            errMsg := some (("failed to fetch build manifest at ").data
              ++ mURL ++ (": ").data ++ e) }
      else
        { found := false, execOK := false, routes := [], allAssets := [],
          errMsg := some (("failed to fetch build manifest at ").data
            ++ mURL ++ (": ").data ++ e) }
  else
    { found := false, execOK := false, routes := [],
      allAssets := setInsertAll [] scripts, errMsg := none }

/-- The errors `ScanTarget` can surface as its terminal error. -/
inductive ScanErr where
  | initialFetch (url e : Str)
  | manifestProcessing (msg : Str)
  | ndProcessing (e : NDErr)
  | ndRaw (e : NDErr)
deriving DecidableEq, Repr

/-- Same always-false `errors.Is` comparison as
`errorsIsFreshNotFoundND`, applied to the scanner's final error at the
retroactive-detection step. -/
def errorsIsFreshNotFoundScan (_e : ScanErr) : Bool := false

/-- Messages of the `__NEXT_DATA__` errors (as produced by
`findAndParseNextData`). -/
def ndErrText : NDErr → Str
  | .notFound => ("__NEXT_DATA__ script tag not found").data
  | .unmarshalFailed => ("failed to unmarshal __NEXT_DATA__ JSON").data
  | .incompleteFields =>
    ("__NEXT_DATA__ found, but missing expected fields (buildId, props)").data

/-- Rendered messages of the scanner errors (used only by the textual
`strings.Contains` check at the retroactive-detection step). -/
def scanErrText : ScanErr → Str
  | .initialFetch u e =>
    ("scanner: initial fetch failed for ").data ++ u ++ (": ").data ++ e
  | .manifestProcessing m =>
    ("scanner: manifest processing failed: ").data ++ m
  | .ndProcessing e =>
    ("scanner: __NEXT_DATA__ processing error: ").data ++ ndErrText e
  | .ndRaw e => ndErrText e

/-- The terminal-error selection of `ScanTarget` (manifest error first,
then any `__NEXT_DATA__` error; the branches guarded by the always-false
fresh-`errors.Is` comparison are kept for faithfulness). -/
def finalErrorChain (mErr : Option Str) (ndErr : Option NDErr)
    (hasScripts : Bool) : Option ScanErr :=
  match mErr with
  | some m => some (.manifestProcessing m)
  | none =>
    match ndErr with
    | some e =>
      if ¬ errorsIsFreshNotFoundND e = true then some (.ndProcessing e)
      else if errorsIsFreshNotFoundND e = true ∧ hasScripts = false then
        some (.ndRaw e)
      else none
    | none => none

/-- The retroactive is-Next.js flip of `ScanTarget`: a confident
detected version (non-empty, not an `Unknown...` value, not a
`...Likely` hint) sets the flag and may clear certain final errors. -/
def retroFlip (isN : Bool) (nv : Str) (fe : Option ScanErr) :
    Bool × Option ScanErr :=
  if isN = false ∧ nv ≠ [] ∧ startsW nv ("Unknown".data) = false
      ∧ hasSub nv ("Likely".data) = false then
    (true,
      match fe with
      | some e =>
        if errorsIsFreshNotFoundScan e then none
        else if hasSub (scanErrText e) ("Unsupported deployment".data) then
          none
        else some e
      | none => none)
  else (isN, fe)

/-- The combined JS asset set handed to the version detector: the
HTML-discovered scripts plus, when the manifest was found and executed,
the manifest assets ending in `.js`. -/
def combineJS (scripts assets : List Str) (useManifest : Bool) :
    List Str :=
  let s1 := setInsertAll [] scripts
  if useManifest then
    setInsertAll s1 (assets.filter (fun u => endsW u (".js".data)))
  else s1

/-- The aggregate scan result (`ScanResult`); `prefixStr` is the
`AssetPrefix` field. -/
structure ScanResult where
  baseURL : Str
  assetBaseURL : Str
  isNextJS : Bool
  buildID : Str
  prefixStr : Str
  routes : List (Str × List Str)
  allAssets : List Str
  manifestFound : Bool
  manifestExecOK : Bool
  executionError : Option ScanErr
  ndRawJSON : Str
  detectedNext : Str
  detectedReact : Str

/-- The URL `ScanTarget` actually fetches: the target, with `https://`
prepended when no scheme marker is present. -/
def initialURL (target : Str) : Str :=
  if startsW target ("http://".data) = false
      ∧ startsW target ("https://".data) = false then
    "https://".data ++ target
  else target

/-- Go `Scanner.ScanTarget`.  The read-body failure and the
final-URL-parse failure (both impossible for the modelled fetcher and
parser) are not modelled; everything else follows the source line by
line. -/
def scanTarget (deps : ScanDeps) (custom target : Str) :
    ScanResult × Option ScanErr :=
  let t := initialURL target
  match deps.fetch t with
  | .error e =>
    let err : ScanErr := .initialFetch t e
    ({ baseURL := t, assetBaseURL := urlString (parseGoURL t),
       isNextJS := false, buildID := [], prefixStr := [], routes := [],
       allAssets := [], manifestFound := false, manifestExecOK := false,
       executionError := some err, ndRawJSON := [], detectedNext := [],
       detectedReact := [] }, some err)
  | .ok res =>
    let content := res.1
    let fin := res.2
    let baseU := parseGoURL fin
    let nd := ndInterpret (deps.parseND content)
    let ab := scanAssetBase custom baseU nd.pfxVal
    let scripts := deps.findScripts content ab
    let isN1 :=
      if (match nd.err with
          | some e => errorsIsFreshNotFoundND e
          | none => false) = true ∧ scripts ≠ [] then true
      else nd.isN
    let mp := scanManifestPhase deps custom ab (urlString ab) nd.bid
      nd.pfxVal scripts
    let combined := combineJS scripts mp.allAssets (mp.found ∧ mp.execOK)
    let vers := deps.detect nd.bid combined (some ab)
    let fe0 := finalErrorChain mp.errMsg nd.err (scripts ≠ [])
    let flip := retroFlip isN1 vers.1 fe0
    ({ baseURL := urlString baseU, assetBaseURL := urlString ab,
       isNextJS := flip.1, buildID := nd.bid, prefixStr := nd.pfxVal,
       routes := mp.routes, allAssets := mp.allAssets,
       manifestFound := mp.found, manifestExecOK := mp.execOK,
       executionError := flip.2, ndRawJSON := nd.raw,
       detectedNext := vers.1, detectedReact := vers.2 }, flip.2)

/-! ### Derived helper definitions used in the statements -/

/-- The URL probed by `detectWithAppManifestProbe` (the same expression
the probe computes internally). -/
def probeURL (bid : Str) (u : GoURL) : Str :=
  urlString (resolveRefURL u
    (goPathJoin ["_next/static".data, bid, "_appManifest.js".data]))

/-- The bad-status error message of the HTTP fetcher
(internal/fetch, `http_fetcher: bad status code fetching %s (final URL:
%s): %d`), grouped to the right for convenient reasoning. -/
def badStatusMsg (target fin code : Str) : Str :=
  ("http_fetcher: bad status code fetching ").data
    ++ (target ++ ((" (final URL: ").data
      ++ (fin ++ (("): ").data ++ code))))

/-! ### Concrete scan inputs used by evaluations and witnesses -/

/-- C2 input: a version literal whose 30-character window contains both
a react token and `reconcilerVersion`. -/
def c2content : Str := ("react reconcilerVersion:\"1.2.3\"").data

/-- C5 priority-URL content: a direct `window.next` assignment with a
literal version. -/
def c5priorityContent : Str :=
  ("window.next = \x7bversion: \"15.2.0\"\x7d").data

/-- C5 non-priority-URL content: a different, conflicting quoted version
literal. -/
def c5otherContent : Str := ("self.v = \"9.9.9\";").data

/-- C5 fetcher: serves the two scripted contents. -/
def c5fetch : Str → Except Str Str := fun u =>
  if u = ("https://x.test/zz-main.js").data then .ok c5priorityContent
  else if u = ("https://x.test/aaa.js").data then .ok c5otherContent
  else .error ("no").data

/-- C6 content: `window.next` version set to the identifier `X`, an
earlier loose quoted version, and a later declaration `let X = "1.2.3"`. -/
def c6content : Str :=
  ("window.next = \x7bversion: X\x7d;a(\"9.9.9\");let X = \"1.2.3\"").data

/-- C6 fetcher: serves the content on a priority URL. -/
def c6fetch : Str → Except Str Str := fun u =>
  if u = ("https://x.test/main.js").data then .ok c6content
  else .error ("no").data

/-- C3 scan dependencies: the initial fetch succeeds, `__NEXT_DATA__` is
absent, one initial framework script is discovered in the HTML, nothing
else succeeds and the detector finds nothing. -/
def c3deps : ScanDeps := {
  fetch := fun u =>
    if u = ("https://x.test").data then
      .ok (("html").data, ("https://x.test/").data)
    else .error ("fetch failed").data
  parseND := fun _ => .errNotFound
  findScripts := fun _ _ =>
    [("https://x.test/_next/static/chunks/main.js").data]
  execManifest := fun _ => .error ("not reached").data
  detect := fun _ _ _ => (("Unknown").data, ("Unknown").data) }

/-- C4 scan dependencies: `__NEXT_DATA__` yields build id `abc`, the
HTML contains one script, and every fetch other than the initial one
(including the build-manifest fetch) fails. -/
def c4deps : ScanDeps := {
  fetch := fun u =>
    if u = ("https://x.test").data then
      .ok (("html").data, ("https://x.test/").data)
    else .error ("fetch failed").data
  parseND := fun _ => .ok ("abc").data [] ("raw").data
  findScripts := fun _ _ =>
    [("https://x.test/_next/static/chunks/main.js").data]
  execManifest := fun _ => .error ("not reached").data
  detect := fun _ _ _ => (("Unknown").data, ("Unknown").data) }

/-- C1 manifest input: the two-route map of the spec's round-trip
property, with the `.css` route given as a single string. -/
def c1manifest : List (Str × MVal) :=
  [(("/a").data, .list [.str ("/static/chunks/a.js").data]),
   (("/b").data, .str ("/static/chunks/b.css").data)]

/-! ## Supporting lemmas -/

theorem startsW_eq_true_iff : ∀ l p : Str, startsW l p = true ↔ p <+: l
  | _, [] => by simp [startsW]
  | [], _ :: _ => by simp [startsW]
  | c :: cs, p :: ps => by
    rw [startsW, Bool.and_eq_true]
    constructor
    · intro h
      have hc : c = p := by simpa using h.1
      obtain ⟨t, ht⟩ := (startsW_eq_true_iff cs ps).mp h.2
      exact ⟨t, by rw [List.cons_append, ht, hc]⟩
    · rintro ⟨t, ht⟩
      rw [List.cons_append] at ht
      injection ht with h1 h2
      exact ⟨by simp [h1], (startsW_eq_true_iff cs ps).mpr ⟨t, h2⟩⟩

theorem hasSub_eq_true_iff : ∀ l n : Str, hasSub l n = true ↔ n <:+: l
  | [], n => by
    rw [hasSub]
    cases n with
    | nil => simp [startsW]
    | cons p ps => simp [startsW]
  | c :: cs, n => by
    rw [hasSub, Bool.or_eq_true]
    constructor
    · intro h
      rcases h with h | h
      · exact ((startsW_eq_true_iff (c :: cs) n).mp h).isInfix
      · obtain ⟨s, t, hst⟩ := (hasSub_eq_true_iff cs n).mp h
        exact ⟨c :: s, t, by simp only [List.cons_append, hst]⟩
    · rintro ⟨s, t, hst⟩
      cases s with
      | nil =>
        exact Or.inl ((startsW_eq_true_iff _ _).mpr ⟨t, by simpa using hst⟩)
      | cons a as =>
        rw [List.cons_append, List.cons_append] at hst
        injection hst with h1 h2
        exact Or.inr ((hasSub_eq_true_iff cs n).mpr ⟨as, t, h2⟩)

theorem hasSub_append_left {a n : Str} (b : Str)
    (h : hasSub a n = true) : hasSub (a ++ b) n = true := by
  obtain ⟨s, t, hst⟩ := (hasSub_eq_true_iff a n).mp h
  exact (hasSub_eq_true_iff _ n).mpr ⟨s, t ++ b, by simp [← hst]⟩

theorem hasSub_append_right {b n : Str} (a : Str)
    (h : hasSub b n = true) : hasSub (a ++ b) n = true := by
  obtain ⟨s, t, hst⟩ := (hasSub_eq_true_iff b n).mp h
  exact (hasSub_eq_true_iff _ n).mpr ⟨a ++ s, t, by simp [← hst]⟩

theorem mem_setInsert {u x : Str} {s : List Str} :
    u ∈ setInsert s x ↔ u ∈ s ∨ u = x := by
  unfold setInsert
  split
  · next h =>
    constructor
    · exact Or.inl
    · rintro (hu | rfl)
      · exact hu
      · exact h
  · simp
theorem mem_setInsertAll {u : Str} : ∀ {xs : List Str} {s : List Str},
    u ∈ setInsertAll s xs ↔ u ∈ s ∨ u ∈ xs := by
  intro xs
  induction xs with
  | nil => simp [setInsertAll]
  | cons x xs ih =>
    intro s
    rw [setInsertAll, List.foldl_cons]
    rw [show List.foldl setInsert (setInsert s x) xs
      = setInsertAll (setInsert s x) xs from rfl]
    rw [ih, mem_setInsert]
    simp
    tauto

theorem mem_sortLex {u : Str} {l : List Str} :
    u ∈ sortLex l ↔ u ∈ l :=
  (List.perm_insertionSort _ l).mem_iff

theorem mapUpd_of_not_mem {m : List (Str × List Str)} {k : Str}
    {v : List Str} (h : m.any (fun p => p.1 == k) = false) :
    mapUpd m k v = m ++ [(k, v)] := by
  simp [mapUpd, h]

/-! ## Claim theorems -/

set_option maxRecDepth 8000 in
/-- C1: evaluating the Asset/Route Resolver on the manifest map
`{"/a": ["/static/chunks/a.js"], "/b": "/static/chunks/b.css"}` with
asset base `https://x.test/_next/`.  The resolver does return exactly two
routes, each with one asset, sorted, with the `.css` single-string value
retained — but both asset URLs begin with
`https://x.test/_next/_next/static/` (the resolver unconditionally joins
the `_next` segment under the asset-base path, duplicating it), not with
`https://x.test/_next/static/` as the claim states. -/
theorem C1_roundtrip_eval :
    extractRoutesAndAssets c1manifest (("https://x.test/_next/").data)
      = ([(("/a").data,
            [("https://x.test/_next/_next/static/chunks/a.js").data]),
          (("/b").data,
            [("https://x.test/_next/_next/static/chunks/b.css").data])],
         [("https://x.test/_next/_next/static/chunks/a.js").data,
          ("https://x.test/_next/_next/static/chunks/b.css").data])
    ∧ startsW (("https://x.test/_next/_next/static/chunks/a.js").data)
        (("https://x.test/_next/static/").data) = false
    ∧ startsW (("https://x.test/_next/_next/static/chunks/b.css").data)
        (("https://x.test/_next/static/").data) = false := by decide

set_option maxRecDepth 8000 in
/-- C2 (counterexample): a quoted version literal whose 30-character
window contains both `react` and `reconcilerVersion` *is* recorded as the
React (UI-library) version by the context-scored scan — the
`reconcilerVersion` exclusion does not guard the React branch. -/
theorem C2_counterexample :
    detectWithSimpleContextPattern [("https://x.test/app.js").data]
      (fun _ => some c2content) [] [] = ([], ("1.2.3").data)
    ∧ hasSub (ctxOf c2content (("\"1.2.3\"").data))
        (("reconcilerVersion").data) = true := by decide

/-- C2 (amended): the `reconcilerVersion` exclusion guards the
*framework*-version branch: a match whose 30-character context window
contains `reconcilerVersion` is never recorded as the Next.js version by
the per-match step of the context-scored scan (the framework slot is
unchanged). -/
theorem C2_reconciler_never_framework (content : Str) (st m : Str × Str)
    (h : hasSub (ctxOf content m.1) (("reconcilerVersion").data) = true) :
    (stepMatch content st m).1 = st.1 := by
  unfold stepMatch
  split
  · rfl
  · simp only []
    split
    · rfl
    · split
      · next hcond =>
        rw [h] at hcond
        exact absurd hcond.2.1 (by simp)
      · rfl

set_option maxRecDepth 8000 in
/-- C2 witness: the amended theorem applied at a concrete match whose
window contains `reconcilerVersion`. -/
theorem C2_reconciler_never_framework_witness :
    hasSub (ctxOf c2content (("\"1.2.3\"").data))
        (("reconcilerVersion").data) = true
    ∧ (stepMatch c2content ([], [])
        ((("\"1.2.3\"").data), (("1.2.3").data))).1 = [] :=
  ⟨by decide,
   C2_reconciler_never_framework c2content ([], [])
     ((("\"1.2.3\"").data), (("1.2.3").data)) (by decide)⟩

set_option maxRecDepth 8000 in
/-- C3: evaluation of `ScanTarget` on a scan whose HTML has no
`__NEXT_DATA__` payload but one initial framework script, with no
manifest lookup and no confident version.  Because
`errors.Is(err, errors.New(...))` against a freshly allocated error is
always false in Go, the `IsNextJS := true` branch for present scripts is
dead and the not-found error is surfaced as a `__NEXT_DATA__ processing
error`: the result has `IsNextJS = false` and a non-null terminal error,
contradicting the claim. -/
theorem C3_eval :
    (scanTarget c3deps [] (("x.test").data)).1.isNextJS = false
    ∧ (scanTarget c3deps [] (("x.test").data)).1.executionError
        = some (.ndProcessing .notFound)
    ∧ c3deps.findScripts (("html").data)
        (scanAssetBase [] (parseGoURL (("https://x.test/").data)) []) ≠ []
    ∧ (scanTarget c3deps [] (("x.test").data)).1.detectedNext
        = ("Unknown").data := by decide

set_option maxRecDepth 8000 in
/-- C4 (counterexample): a scan with build id `abc` whose manifest fetch
fails: the HTML-discovered script is reported by `findInitialScriptURLs`,
yet the returned `AllAssets` set is empty — it is not populated from the
HTML scripts in this path. -/
theorem C4_counterexample :
    (scanTarget c4deps [] (("x.test").data)).1.allAssets = []
    ∧ (scanTarget c4deps [] (("x.test").data)).1.buildID = ("abc").data
    ∧ c4deps.findScripts (("html").data)
        (scanAssetBase [] (parseGoURL (("https://x.test/").data)) [])
      = [("https://x.test/_next/static/chunks/main.js").data]
    ∧ (("https://x.test/_next/static/chunks/main.js").data)
        ∉ (scanTarget c4deps [] (("x.test").data)).1.allAssets
    ∧ (scanTarget c4deps [] (("x.test").data)).1.executionError.isSome
        = true := by decide

set_option maxRecDepth 8000 in
/-- C5: evaluation of `Detect` on a priority URL whose content holds a
direct `window.next = {version: "15.2.0"}` assignment and a non-priority
URL holding a conflicting literal `"9.9.9"`.  The direct-assignment
regex is double-escaped in the Go raw string (its capture group demands
literal backslashes), so Strategy A never fires; the context fallback
then scans all URLs in sorted order and returns the non-priority URL's
`9.9.9`, not the priority URL's `15.2.0` as claimed. -/
theorem C5_eval :
    Detect (("b1").data)
      [("https://x.test/zz-main.js").data, ("https://x.test/aaa.js").data]
      (some ⟨("https").data, ("x.test").data, ("/").data⟩) c5fetch
      = (("9.9.9").data, ("Unknown").data)
    ∧ hasSub c5priorityContent (("version: \"15.2.0\"").data) = true
    ∧ (("9.9.9").data : Str) ≠ ("15.2.0").data := by decide

set_option maxRecDepth 8000 in
/-- C6: evaluation of `Detect` on a priority URL containing
`window.next = {version: X}`, an earlier loose literal `"9.9.9"`, and a
later declaration `let X = "1.2.3"`.  The declaration-scan regex
(`assignmentVersionRegex`) is double-escaped and cannot match any real
declaration (`scanFirst matchAssignAt` is `none` even though the
declaration is present), so the engine falls through to the first loose
quoted version and returns `9.9.9` instead of the declared `1.2.3`. -/
theorem C6_eval :
    Detect (("b1").data) [("https://x.test/main.js").data]
      (some ⟨("https").data, ("x.test").data, ("/").data⟩) c6fetch
      = (("9.9.9").data, ("Unknown").data)
    ∧ hasSub c6content (("let X = \"1.2.3\"").data) = true
    ∧ scanFirst matchAssignAt c6content = none
    ∧ (("9.9.9").data : Str) ≠ ("1.2.3").data := by decide

theorem extractLoop_union (base : GoURL) :
    ∀ (entries : List (Str × MVal)) (acc : List (Str × List Str) × List Str),
    (entries.map Prod.fst).Nodup →
    (∀ kv ∈ entries, acc.1.any (fun p => p.1 == kv.1) = false) →
    (∀ w, w ∈ acc.2 ↔ ∃ p ∈ acc.1, w ∈ p.2) →
    ∀ u, u ∈ (extractLoop base entries acc).2 ↔
      ∃ p ∈ (extractLoop base entries acc).1, u ∈ p.2 := by
  intro entries
  induction entries with
  | nil =>
    intro acc _ _ hinv u
    exact hinv u
  | cons kv rest ih =>
    intro acc hnodup hkeys hinv u
    obtain ⟨k, v⟩ := kv
    rw [extractLoop]
    by_cases hskip : skipKey k = true
    · rw [if_pos hskip]
      exact ih acc hnodup.of_cons
        (fun kv' h' => hkeys kv' (List.mem_cons_of_mem _ h')) hinv u
    · rw [if_neg hskip]
      cases hcoerce : coerceAssets v with
      | none =>
        exact ih acc hnodup.of_cons
          (fun kv' h' => hkeys kv' (List.mem_cons_of_mem _ h')) hinv u
      | some items =>
        have hknot : acc.1.any (fun p => p.1 == k) = false :=
          hkeys (k, v) (List.mem_cons_self _ _)
        dsimp only
        rw [mapUpd_of_not_mem hknot]
        apply ih
        · exact hnodup.of_cons
        · intro kv' h'
          have h1 := hkeys kv' (List.mem_cons_of_mem _ h')
          have hnd : (k :: List.map Prod.fst rest).Nodup := by
            rw [List.map_cons] at hnodup
            exact hnodup
          have hmem : kv'.1 ∈ List.map Prod.fst rest :=
            List.mem_map_of_mem Prod.fst h'
          have h2 : k ≠ kv'.1 := by
            intro he
            rw [← he] at hmem
            exact (List.nodup_cons.mp hnd).1 hmem
          rw [List.any_append]
          simp [h1, h2]
        · intro w
          rw [mem_setInsertAll, hinv w]
          simp only [List.mem_append, List.mem_singleton]
          constructor
          · rintro (⟨p, hp, hw⟩ | hw)
            · exact ⟨p, Or.inl hp, hw⟩
            · exact ⟨(k, sortLex (processAssets base items)), Or.inr rfl,
                mem_sortLex.mpr hw⟩
          · rintro ⟨p, hp | rfl, hw⟩
            · exact Or.inl ⟨p, hp, hw⟩
            · exact Or.inr (mem_sortLex.mp hw)

/-- C9: for every manifest map (Go map keys are unique, whence the
`Nodup` hypothesis) and every asset-base URL, the all-assets set
returned by `extractRoutesAndAssets` is exactly the union of the
per-route asset lists. -/
theorem C9_allAssets_union (manifestData : List (Str × MVal))
    (assetBaseURL : Str) (hnodup : (manifestData.map Prod.fst).Nodup)
    (u : Str) :
    u ∈ (extractRoutesAndAssets manifestData assetBaseURL).2 ↔
      ∃ p ∈ (extractRoutesAndAssets manifestData assetBaseURL).1, u ∈ p.2 :=
  extractLoop_union _ manifestData ([], []) hnodup (by simp) (by simp) u

set_option maxRecDepth 8000 in
/-- C9 witness: the union property applied at the concrete two-route
manifest of the round-trip example. -/
theorem C9_allAssets_union_witness :
    (List.map Prod.fst c1manifest).Nodup
    ∧ ((("https://x.test/_next/_next/static/chunks/a.js").data)
        ∈ (extractRoutesAndAssets c1manifest
            (("https://x.test/_next/").data)).2 ↔
       ∃ p ∈ (extractRoutesAndAssets c1manifest
            (("https://x.test/_next/").data)).1,
         (("https://x.test/_next/_next/static/chunks/a.js").data) ∈ p.2) :=
  ⟨by decide, C9_allAssets_union c1manifest (("https://x.test/_next/").data)
    (by decide) (("https://x.test/_next/_next/static/chunks/a.js").data)⟩

theorem splitSeg_ne_nil : ∀ s : Str, splitSeg s ≠ []
  | [] => by simp [splitSeg]
  | c :: rest => by
    rw [splitSeg]
    split
    · simp
    · cases h : splitSeg rest with
      | nil => simp
      | cons a as => simp

theorem splitSeg_append_slash :
    ∀ a b : Str, splitSeg (a ++ '/' :: b) = splitSeg a ++ splitSeg b
  | [], b => by simp [splitSeg]
  | c :: a', b => by
    rw [List.cons_append, splitSeg]
    by_cases hc : c = '/'
    · rw [if_pos hc, splitSeg_append_slash a' b]
      rw [show splitSeg (c :: a') = [] :: splitSeg a' from by
        rw [splitSeg, if_pos hc]]
      rfl
    · rw [if_neg hc, splitSeg_append_slash a' b]
      rw [show splitSeg (c :: a')
          = (match splitSeg a' with
             | [] => [[c]]
             | s :: ss => (c :: s) :: ss) from by
        rw [splitSeg, if_neg hc]]
      cases h : splitSeg a' with
      | nil => exact absurd h (splitSeg_ne_nil a')
      | cons s ss => simp

theorem splitSeg_noSlash : ∀ a : Str, '/' ∉ a → splitSeg a = [a]
  | [], _ => rfl
  | c :: a', h => by
    have hc : ¬ c = '/' := fun e => h (e ▸ List.mem_cons_self c a')
    rw [splitSeg, if_neg hc,
      splitSeg_noSlash a' (fun hm => h (List.mem_cons_of_mem _ hm))]

theorem intercalSeg_splitSeg : ∀ s : Str, intercalSeg (splitSeg s) = s := by
  intro s
  induction s with
  | nil => rfl
  | cons c rest ih =>
    rw [splitSeg]
    by_cases hc : c = '/'
    · rw [if_pos hc]
      cases h : splitSeg rest with
      | nil => exact absurd h (splitSeg_ne_nil rest)
      | cons s0 ss =>
        rw [h] at ih
        subst hc
        rw [show intercalSeg ([] :: s0 :: ss)
            = [] ++ '/' :: intercalSeg (s0 :: ss) from rfl]
        rw [ih]
        rfl
    · rw [if_neg hc]
      cases h : splitSeg rest with
      | nil => exact absurd h (splitSeg_ne_nil rest)
      | cons s0 ss =>
        rw [h] at ih
        cases ss with
        | nil =>
          rw [show intercalSeg [c :: s0] = c :: s0 from rfl]
          rw [show intercalSeg [s0] = s0 from rfl] at ih
          rw [ih]
        | cons s1 ss1 =>
          rw [show intercalSeg ((c :: s0) :: s1 :: ss1)
              = (c :: s0) ++ '/' :: intercalSeg (s1 :: ss1) from rfl]
          rw [show intercalSeg (s0 :: s1 :: ss1)
              = s0 ++ '/' :: intercalSeg (s1 :: ss1) from rfl] at ih
          rw [List.cons_append, ih]

theorem rdsSegs_no_dots :
    ∀ (segs acc : List Str),
    (∀ s ∈ segs, s ≠ (".").data ∧ s ≠ ("..").data) →
    rdsSegs acc segs = acc.reverse ++ segs := by
  intro segs
  induction segs with
  | nil =>
    intro acc _
    simp [rdsSegs]
  | cons s rest ih =>
    intro acc h
    have hs := h s (List.mem_cons_self _ _)
    rw [rdsSegs, if_neg hs.1, if_neg hs.2,
      ih (s :: acc) (fun t ht => h t (List.mem_cons_of_mem _ ht))]
    simp

theorem cleanSegsGo_keep (rooted : Bool) :
    ∀ (segs acc : List Str),
    (∀ s ∈ segs, s ≠ [] ∧ s ≠ (".").data ∧ s ≠ ("..").data) →
    cleanSegsGo rooted acc segs = acc.reverse ++ segs := by
  intro segs
  induction segs with
  | nil =>
    intro acc _
    rw [cleanSegsGo.eq_def]
    simp
  | cons s rest ih =>
    intro acc h
    have hs := h s (List.mem_cons_self _ _)
    rw [cleanSegsGo.eq_def]
    dsimp only
    rw [if_neg (by simp [hs.1, hs.2.1]), if_neg hs.2.2,
      ih (s :: acc) (fun t ht => h t (List.mem_cons_of_mem _ ht))]
    simp

theorem intercalSeg_append_ne :
    ∀ (A B : List Str), A ≠ [] → B ≠ [] →
    intercalSeg (A ++ B) = intercalSeg A ++ '/' :: intercalSeg B := by
  intro A
  induction A with
  | nil =>
    intro B hA _
    exact absurd rfl hA
  | cons a A' ih =>
    intro B _ hB
    cases A' with
    | nil =>
      cases B with
      | nil => exact absurd rfl hB
      | cons b B' => rfl
    | cons a2 A'' =>
      rw [List.cons_append]
      rw [show intercalSeg (a :: ((a2 :: A'') ++ B))
          = a ++ '/' :: intercalSeg ((a2 :: A'') ++ B) from rfl]
      rw [ih B (by simp) hB]
      rw [show intercalSeg (a :: a2 :: A'')
          = a ++ '/' :: intercalSeg (a2 :: A'') from rfl]
      rw [List.append_assoc]
      rfl

theorem upToLastSlash_slashEnd (q : Str) :
    upToLastSlash (q ++ ['/']) = q ++ ['/'] := by
  unfold upToLastSlash
  rw [List.reverse_append]
  simp [List.dropWhile]

/-- Path resolution extends a rooted, slash-terminated, dot-free base
path by a relative dot-free reference. -/
theorem urlResolvePath_merge (basePath rel : Str)
    (hrelne : rel ≠ [])
    (hrelhd : ∃ c t, rel = c :: t ∧ c ≠ '/')
    (hslash : upToLastSlash basePath = basePath)
    (hroot : ∃ p, basePath = '/' :: p)
    (hdots : ∀ s ∈ splitSeg (basePath ++ rel),
      s ≠ (".").data ∧ s ≠ ("..").data) :
    urlResolvePath basePath rel = basePath ++ rel := by
  obtain ⟨p, rfl⟩ := hroot
  obtain ⟨c, t, hct, hcne⟩ := hrelhd
  have hrelhd2 : rel.head? ≠ some '/' := by
    rw [hct]
    simp [hcne]
  simp only [urlResolvePath]
  rw [if_neg hrelne, if_neg hrelhd2, hslash]
  have hfne : ('/' :: p) ++ rel ≠ [] := by simp
  rw [if_neg hfne]
  have hhd : (('/' :: p) ++ rel).head? = some '/' := rfl
  rw [if_pos hhd]
  rw [show ('/' :: p) ++ rel = '/' :: (p ++ rel) from rfl]
  rw [show splitSeg ('/' :: (p ++ rel)) = [] :: splitSeg (p ++ rel) from by
    rw [splitSeg]
    rfl]
  rw [List.tail_cons]
  rw [rdsSegs_no_dots _ [] (fun s hsm => by
    apply hdots s
    rw [show ('/' :: p) ++ rel = '/' :: (p ++ rel) from rfl]
    rw [show splitSeg ('/' :: (p ++ rel)) = [] :: splitSeg (p ++ rel) from by
      rw [splitSeg]
      rfl]
    exact List.mem_cons_of_mem _ hsm)]
  rw [List.reverse_nil, List.nil_append, intercalSeg_splitSeg]

/-- Go `path.Join` of a slash-free head element, a slash-free
non-dot segment and a slash-free tail element is plain joining. -/
theorem goPathJoin3_eq (a c bid : Str)
    (hane : a ≠ []) (hahd : ∃ a0 t, a = a0 :: t ∧ a0 ≠ '/')
    (hadots : ∀ s ∈ splitSeg a, s ≠ [] ∧ s ≠ (".").data ∧ s ≠ ("..").data)
    (hcs : '/' ∉ c) (hcne : c ≠ []) (hcd : c ≠ (".").data)
    (hcdd : c ≠ ("..").data)
    (hbne : bid ≠ []) (hbs : '/' ∉ bid)
    (hbd : bid ≠ (".").data) (hbdd : bid ≠ ("..").data) :
    goPathJoin [a, bid, c] = a ++ '/' :: (bid ++ '/' :: c) := by
  obtain ⟨a0, ta, hat, ha0⟩ := hahd
  unfold goPathJoin
  rw [show List.dropWhile (· = ([] : Str)) [a, bid, c] = [a, bid, c] from by
    rw [List.dropWhile_cons]
    simp [hane]]
  show goPathClean (intercalSeg [a, bid, c]) = _
  rw [show intercalSeg [a, bid, c] = a ++ '/' :: (bid ++ '/' :: c) from rfl]
  unfold goPathClean
  rw [if_neg (show ¬ a ++ '/' :: (bid ++ '/' :: c) = [] by simp)]
  dsimp only
  have hn : ¬ (a ++ '/' :: (bid ++ '/' :: c)).head? = some '/' := by
    subst hat
    simp [ha0]
  rw [if_neg hn, decide_eq_false hn]
  rw [splitSeg_append_slash, splitSeg_append_slash,
    splitSeg_noSlash bid hbs, splitSeg_noSlash c hcs]
  rw [cleanSegsGo_keep false (splitSeg a ++ ([bid] ++ [c])) [] (by
    intro s hsm
    rcases List.mem_append.mp hsm with hsm | hsm
    · exact hadots s hsm
    · rcases List.mem_append.mp hsm with hsm | hsm
      · rw [List.mem_singleton.mp hsm]
        exact ⟨hbne, hbd, hbdd⟩
      · rw [List.mem_singleton.mp hsm]
        exact ⟨hcne, hcd, hcdd⟩)]
  rw [List.reverse_nil, List.nil_append]
  rw [if_neg (show ¬ splitSeg a ++ ([bid] ++ [c]) = [] by simp)]
  rw [show ([bid] ++ [c] : List Str) = [bid, c] from rfl]
  rw [intercalSeg_append_ne (splitSeg a) [bid, c] (splitSeg_ne_nil a)
    (by simp)]
  rw [intercalSeg_splitSeg]
  rfl

set_option maxRecDepth 8000 in
/-- C7 (counterexample): for the asset base `https://x.test/_next`
(path without a trailing slash, which does contain the `_next`
static-assets segment) and build id `abc`, the derived manifest URL is
`https://x.test/static/abc/_buildManifest.js` — relative resolution
drops the base's final `_next` segment, so the result is not the asset
base extended with `static/abc/_buildManifest.js` (it does not even
start with the asset base's URL string). -/
theorem C7_counterexample :
    manifestURLFor
        ⟨("https").data, ("x.test").data, ("/_next").data⟩ (("abc").data)
      = ("https://x.test/static/abc/_buildManifest.js").data
    ∧ (hasSub (("/_next").data) (("/_next/").data) = true
        ∨ endsW (("/_next").data) (("/_next").data) = true)
    ∧ startsW
        (manifestURLFor
          ⟨("https").data, ("x.test").data, ("/_next").data⟩ (("abc").data))
        (urlString ⟨("https").data, ("x.test").data, ("/_next").data⟩)
      = false := by
  exact ⟨by decide, by decide, by decide⟩

/-- C7 (amended): for every asset base whose path is rooted,
slash-terminated and free of `.`/`..` segments, and every build id that
is a nonempty slash-free non-dot segment, the derived manifest URL is
exactly the asset-base URL extended with
`static/<buildId>/_buildManifest.js` when the base path already contains
the `_next` segment, and with `_next/static/<buildId>/_buildManifest.js`
otherwise — the static-assets segment is never duplicated. -/
theorem C7_amended (ab : GoURL) (bid q : Str)
    (hq : ab.path = q ++ ['/'])
    (hroot : ∃ p, ab.path = '/' :: p)
    (hdots : ∀ s ∈ splitSeg ab.path, s ≠ (".").data ∧ s ≠ ("..").data)
    (hbne : bid ≠ []) (hbs : '/' ∉ bid)
    (hbd : bid ≠ (".").data) (hbdd : bid ≠ ("..").data) :
    manifestURLFor ab bid
      = urlString ab
        ++ ((if hasSub ab.path (("/_next/").data) = true
              ∨ endsW ab.path (("/_next").data) = true
            then ("static/").data else ("_next/static/").data)
          ++ (bid ++ ("/_buildManifest.js").data)) := by
  have hmem : ∀ rel : Str,
      (∀ s ∈ splitSeg rel, s ≠ (".").data ∧ s ≠ ("..").data) →
      ∀ s ∈ splitSeg (ab.path ++ rel),
        s ≠ (".").data ∧ s ≠ ("..").data := by
    intro rel hrel s hs
    rw [hq, List.append_assoc,
      show (['/'] ++ rel : Str) = '/' :: rel from rfl,
      splitSeg_append_slash] at hs
    rcases List.mem_append.mp hs with hs | hs
    · apply hdots
      rw [hq, show (q ++ ['/'] : Str) = q ++ '/' :: [] from rfl,
        splitSeg_append_slash]
      exact List.mem_append_left _ hs
    · exact hrel s hs
  have hmerge : ∀ rel : Str, (∃ c t, rel = c :: t ∧ c ≠ '/') → rel ≠ [] →
      (∀ s ∈ splitSeg rel, s ≠ (".").data ∧ s ≠ ("..").data) →
      urlResolvePath ab.path rel = ab.path ++ rel := by
    intro rel hhd hne hrel
    exact urlResolvePath_merge ab.path rel hne hhd
      (by rw [hq]; exact upToLastSlash_slashEnd q) hroot (hmem rel hrel)
  have hsplit3 : ∀ a c bid' : Str, '/' ∉ a → '/' ∉ c → '/' ∉ bid' →
      splitSeg (a ++ '/' :: (bid' ++ '/' :: c)) = [a] ++ ([bid'] ++ [c]) := by
    intro a c bid' ha hc hb
    rw [splitSeg_append_slash, splitSeg_append_slash,
      splitSeg_noSlash a ha, splitSeg_noSlash bid' hb, splitSeg_noSlash c hc]
  have hfinal : ∀ u : GoURL, ∀ x : Str,
      urlString { scheme := u.scheme, host := u.host, path := u.path ++ x }
        = urlString u ++ x := by
    intro u x
    simp only [urlString, List.append_assoc]
  by_cases hcond : hasSub ab.path (("/_next/").data) = true
      ∨ endsW ab.path (("/_next").data) = true
  · rw [manifestURLFor, if_pos hcond]
    rw [if_pos hcond]
    rw [goPathJoin3_eq (("static").data) (("_buildManifest.js").data) bid
      (by decide) ⟨'s', ("tatic").data, by decide, by decide⟩ (by decide)
      (by decide) (by decide) (by decide) (by decide) hbne hbs hbd hbdd]
    unfold resolveRefURL
    rw [hmerge (("static").data ++ '/' ::
        (bid ++ '/' :: ("_buildManifest.js").data))
      ⟨'s', ("tatic").data ++ '/' ::
        (bid ++ '/' :: ("_buildManifest.js").data), rfl, by decide⟩
      (by simp)
      (by
        rw [hsplit3 _ _ bid (by decide) (by decide) hbs]
        intro s hs
        rcases List.mem_append.mp hs with hs | hs
        · rw [List.mem_singleton.mp hs]
          exact ⟨by decide, by decide⟩
        · rcases List.mem_append.mp hs with hs | hs
          · rw [List.mem_singleton.mp hs]
            exact ⟨hbd, hbdd⟩
          · rw [List.mem_singleton.mp hs]
            exact ⟨by decide, by decide⟩)]
    rw [hfinal]
    rfl
  · rw [manifestURLFor, if_neg hcond]
    rw [if_neg hcond]
    rw [goPathJoin3_eq (("_next/static").data) (("_buildManifest.js").data)
      bid (by decide) ⟨'_', ("next/static").data, by decide, by decide⟩
      (by decide) (by decide) (by decide) (by decide) (by decide)
      hbne hbs hbd hbdd]
    unfold resolveRefURL
    rw [hmerge (("_next/static").data ++ '/' ::
        (bid ++ '/' :: ("_buildManifest.js").data))
      ⟨'_', ("next/static").data ++ '/' ::
        (bid ++ '/' :: ("_buildManifest.js").data), rfl, by decide⟩
      (by simp)
      (by
        rw [show (("_next/static").data ++ '/' ::
            (bid ++ '/' :: ("_buildManifest.js").data) : Str)
          = ("_next").data ++ '/' :: (("static").data ++ '/' ::
            (bid ++ '/' :: ("_buildManifest.js").data)) from rfl]
        rw [splitSeg_append_slash, splitSeg_noSlash _ (by decide),
          hsplit3 _ _ bid (by decide) (by decide) hbs]
        intro s hs
        rcases List.mem_append.mp hs with hs | hs
        · rw [List.mem_singleton.mp hs]
          exact ⟨by decide, by decide⟩
        · rcases List.mem_append.mp hs with hs | hs
          · rw [List.mem_singleton.mp hs]
            exact ⟨by decide, by decide⟩
          · rcases List.mem_append.mp hs with hs | hs
            · rw [List.mem_singleton.mp hs]
              exact ⟨hbd, hbdd⟩
            · rw [List.mem_singleton.mp hs]
              exact ⟨by decide, by decide⟩)]
    rw [hfinal]
    rfl

set_option maxRecDepth 8000 in
/-- C7 witness: the amended derivation applied at the slash-terminated
asset base `https://x.test/_next/` and build id `abc`. -/
theorem C7_amended_witness :
    manifestURLFor
        ⟨("https").data, ("x.test").data, ("/_next/").data⟩ (("abc").data)
      = urlString ⟨("https").data, ("x.test").data, ("/_next/").data⟩
        ++ ((if hasSub (("/_next/").data) (("/_next/").data) = true
              ∨ endsW (("/_next/").data) (("/_next").data) = true
            then ("static/").data else ("_next/static/").data)
          ++ ((("abc").data) ++ ("/_buildManifest.js").data)) :=
  C7_amended ⟨("https").data, ("x.test").data, ("/_next/").data⟩
    (("abc").data) (("/_next").data) (by decide)
    ⟨("_next/").data, by decide⟩ (by decide) (by decide) (by decide)
    (by decide) (by decide)

/-- C8: the presence probe with a non-empty build id, an asset base and
a fetcher: success yields the App-Router hint with found = true; a
bad-status error carrying `: 404` or `: 403` yields the Pages-Router
hint with found = true; any other failure yields the unknown-with-reason
string with found = false. -/
theorem C8_probe (bid : Str) (u : GoURL) (hb : bid ≠ []) :
    (∀ f : Str → Except Str Unit, f (probeURL bid u) = .ok () →
      detectWithAppManifestProbe bid (some u) (some f)
        = ((">=13 (App Router Likely)").data, true))
    ∧ (∀ (f : Str → Except Str Unit) (target fin code : Str),
      (code = ("404").data ∨ code = ("403").data) →
      f (probeURL bid u) = .error (badStatusMsg target fin code) →
      detectWithAppManifestProbe bid (some u) (some f)
        = (("<13 / Pages Router Likely").data, true))
    ∧ (∀ (f : Str → Except Str Unit) (e : Str),
      f (probeURL bid u) = .error e →
      ¬ (hasSub e (("bad status code").data) = true
          ∧ (hasSub e ((": 404").data) = true
            ∨ hasSub e ((": 403").data) = true)) →
      detectWithAppManifestProbe bid (some u) (some f)
        = (("Unknown (Error probing)").data, false)) := by
  refine ⟨?_, ?_, ?_⟩
  · intro f hf
    simp only [probeURL] at hf
    simp only [detectWithAppManifestProbe]
    rw [if_neg hb, hf]
  · intro f t fin code hcode hf
    simp only [probeURL] at hf
    simp only [detectWithAppManifestProbe]
    rw [if_neg hb, hf]
    have hbad : hasSub (badStatusMsg t fin code)
        (("bad status code").data) = true := by
      unfold badStatusMsg
      exact hasSub_append_left _ (by decide)
    have h40x : hasSub (badStatusMsg t fin code) ((": 404").data) = true
        ∨ hasSub (badStatusMsg t fin code) ((": 403").data) = true := by
      unfold badStatusMsg
      rcases hcode with rfl | rfl
      · refine Or.inl (hasSub_append_right _ (hasSub_append_right _
          (hasSub_append_right _ (hasSub_append_right _ (by decide)))))
      · refine Or.inr (hasSub_append_right _ (hasSub_append_right _
          (hasSub_append_right _ (hasSub_append_right _ (by decide)))))
    dsimp only
    rw [if_pos ⟨hbad, h40x⟩]
  · intro f e hf hnot
    simp only [probeURL] at hf
    simp only [detectWithAppManifestProbe]
    rw [if_neg hb, hf]
    dsimp only
    rw [if_neg hnot]

/-- C8 witness: the probe theorem applied at build id `b`, asset base
`https://x.test/`, and the three concrete fetch outcomes. -/
theorem C8_probe_witness :
    detectWithAppManifestProbe (("b").data)
        (some ⟨("https").data, ("x.test").data, ("/").data⟩)
        (some (fun _ => .ok ()))
      = ((">=13 (App Router Likely)").data, true)
    ∧ detectWithAppManifestProbe (("b").data)
        (some ⟨("https").data, ("x.test").data, ("/").data⟩)
        (some (fun _ => .error
          (badStatusMsg (("u").data) (("v").data) (("404").data))))
      = (("<13 / Pages Router Likely").data, true)
    ∧ detectWithAppManifestProbe (("b").data)
        (some ⟨("https").data, ("x.test").data, ("/").data⟩)
        (some (fun _ => .error (("boom").data)))
      = (("Unknown (Error probing)").data, false) :=
  ⟨(C8_probe (("b").data) ⟨("https").data, ("x.test").data, ("/").data⟩
      (by decide)).1 _ rfl,
   (C8_probe (("b").data) ⟨("https").data, ("x.test").data, ("/").data⟩
      (by decide)).2.1 _ (("u").data) (("v").data) (("404").data)
      (Or.inl rfl) rfl,
   (C8_probe (("b").data) ⟨("https").data, ("x.test").data, ("/").data⟩
      (by decide)).2.2 _ (("boom").data) rfl (by decide)⟩

/-- C4 (amended): when the build id is non-empty, no custom base URL is
supplied and the build-manifest fetch fails, the returned `AllAssets`
set is empty — it is *not* populated from the HTML-discovered scripts;
those populate `AllAssets` only when the build id is empty (second
conjunct). -/
theorem C4_amended (deps : ScanDeps) (target c fin : Str)
    (hfetch : deps.fetch (initialURL target) = .ok (c, fin)) :
    (∀ bid pfxv raw e, deps.parseND c = .ok bid pfxv raw → bid ≠ [] →
      deps.fetch (manifestURLFor
        (scanAssetBase [] (parseGoURL fin) pfxv) bid) = .error e →
      (scanTarget deps [] target).1.allAssets = [])
    ∧ (deps.parseND c = .errNotFound →
      ∀ w ∈ deps.findScripts c (scanAssetBase [] (parseGoURL fin) []),
        w ∈ (scanTarget deps [] target).1.allAssets) := by
  constructor
  · intro bid pfxv raw e hnd hbid hman
    simp only [scanTarget, hfetch, hnd, ndInterpret]
    simp only [scanManifestPhase, if_pos hbid, hman]
    simp only [if_neg (show ¬ ((([] : Str) ≠ []) ∧ pfxv ≠ []) from by simp)]
  · intro hnd w hw
    simp only [scanTarget, hfetch, hnd, ndInterpret]
    simp only [scanManifestPhase,
      if_neg (show ¬ (([] : Str) ≠ []) from by simp)]
    exact mem_setInsertAll.mpr (Or.inr hw)

/-- C4 witness: the amended statement applied at the concrete failing
scan (both conjuncts: the manifest-failure scan of `c4deps` yields empty
`AllAssets`; the no-build-id scan of `c3deps` retains the script). -/
theorem C4_amended_witness :
    (scanTarget c4deps [] (("x.test").data)).1.allAssets = []
    ∧ (("https://x.test/_next/static/chunks/main.js").data)
        ∈ (scanTarget c3deps [] (("x.test").data)).1.allAssets :=
  ⟨(C4_amended c4deps (("x.test").data) (("html").data)
      (("https://x.test/").data) rfl).1 (("abc").data) [] (("raw").data)
      (("fetch failed").data) rfl (by decide) rfl,
   (C4_amended c3deps (("x.test").data) (("html").data)
      (("https://x.test/").data) rfl).2 rfl
      (("https://x.test/_next/static/chunks/main.js").data) (by decide)⟩

/-- C10: a target URL with neither scheme marker is fetched with
`https://` prepended, and — when the initial fetch succeeds and the
final URL survives the parse/serialize round trip — the result's
`BaseURL` is the fetcher-reported final URL, not the caller-supplied
target. -/
theorem C10_baseURL (deps : ScanDeps) (target c fin custom : Str)
    (h1 : startsW target (("http://").data) = false)
    (h2 : startsW target (("https://").data) = false)
    (hf : deps.fetch ((("https://").data) ++ target) = .ok (c, fin)) :
    initialURL target = (("https://").data) ++ target
    ∧ (urlString (parseGoURL fin) = fin →
      (scanTarget deps custom target).1.baseURL = fin) := by
  have hIU : initialURL target = (("https://").data) ++ target := by
    unfold initialURL
    rw [if_pos ⟨h1, h2⟩]
  refine ⟨hIU, fun hrt => ?_⟩
  simp only [scanTarget, hIU, hf]
  exact hrt

/-- C10 witness: the base-URL property applied at the concrete target
`x.test`, where the fetcher reports final URL `https://x.test/`. -/
theorem C10_baseURL_witness :
    initialURL (("x.test").data) = (("https://").data) ++ (("x.test").data)
    ∧ (scanTarget c3deps [] (("x.test").data)).1.baseURL
        = ("https://x.test/").data :=
  ⟨(C10_baseURL c3deps (("x.test").data) (("html").data)
      (("https://x.test/").data) [] (by decide) (by decide) rfl).1,
   (C10_baseURL c3deps (("x.test").data) (("html").data)
      (("https://x.test/").data) [] (by decide) (by decide) rfl).2
     (by decide)⟩

end Nextr4y
